import Mathlib

/-!
Verification of `preact-headmaster` (src/src/index.ts) against its
natural-language specification.

The embedding models the reconciliation engine:
* browser mode: the effect body of `useHeadmaster` (lines 59-105) as a state
  transformer on a `Doc` (document title, root/body attributes, head children),
  together with `createOrUpdateElement` (lines 30-47) and the teardown closure
  (lines 99-105);
* server mode: the shallow merge into `serverHeadmasterData` (line 55) and
  `renderServerHeadmaster` (lines 118-145).

JavaScript object identity (the `!==` change detection on object-valued fields)
is modelled by tagging every object-valued Descriptor field with a `Nat`
reference id; `title` is a string primitive so it is compared by value, exactly
as `!==` behaves on JS string primitives.  Attribute values of the tag-kind
attribute sets are `string | boolean | undefined` (`AttrVal`); JS string
conversion (`String(value)` / template interpolation) is `jsString`.
-/

namespace Headmaster

/-- A JS attribute value as it occurs in the tag-kind attribute sets:
a string, a boolean flag, or `undefined`. -/
inductive AttrVal where
  | str (s : String)
  | bool (b : Bool)
  | undef
deriving DecidableEq, Repr

/-- JS string conversion, as performed by `String(value)` (line 38) and by
template-literal interpolation (line 134). -/
def jsString : AttrVal → String
  | AttrVal.str s => s
  | AttrVal.bool true => "true"
  | AttrVal.bool false => "false"
  | AttrVal.undef => "undefined"

/-- One attribute set (a JS object), entries in key insertion order.
Data-model invariant: keys are unique within one set. -/
abbrev AttrSet := List (String × AttrVal)

/-- A string-valued attribute map (`Record<string, string>`), used for
`htmlAttributes` / `bodyAttributes` and for the attributes stored on a
concrete DOM element (where `setAttribute` has already string-converted). -/
abbrev StrAttrs := List (String × String)

/-- Models `element.setAttribute(k, v)`: replace in place if the key exists,
otherwise append in insertion order. -/
def setAttr (m : StrAttrs) (k v : String) : StrAttrs :=
  if m.any (fun p => p.1 == k) then
    m.map (fun p => if p.1 == k then (k, v) else p)
  else
    m ++ [(k, v)]

/-- Models `element.removeAttribute(k)`. -/
def removeAttr (m : StrAttrs) (k : String) : StrAttrs :=
  m.filter (fun p => p.1 != k)

/-- Models `element.hasAttribute(k)` / key presence in a map. -/
def hasKey (m : StrAttrs) (k : String) : Bool :=
  m.any (fun p => p.1 == k)

/-- Models `element.getAttribute(k)` (first entry with that key). -/
def lookupAttr (m : StrAttrs) (k : String) : Option String :=
  (m.find? (fun p => p.1 == k)).map (fun p => p.2)

/-- A concrete head element.  `id` is the node identity (JS object identity of
the `HTMLElement`); attribute values are stored string-converted, as
`setAttribute` leaves them. -/
structure Element where
  id : Nat
  tagName : String
  attrs : StrAttrs
  inner : Option String
deriving DecidableEq, Repr

/-- The mutable document state visible to the browser-mode code:
`document.title`, the root element's attributes, the body element's
attributes, the children of `document.head` in document order, and a
fresh-node counter used by `document.createElement`. -/
structure Doc where
  title : String
  htmlAttrs : StrAttrs
  bodyAttrs : StrAttrs
  headElems : List Element
  nextId : Nat
deriving DecidableEq, Repr

/-- One primitive DOM mutation performed by the effect body; the apply pass
logs every mutation it performs, in order. -/
inductive Mutation where
  | setTitle (t : String)
  | setHtmlAttr (k v : String)
  | setBodyAttr (k v : String)
  | createElem (id : Nat) (tag : String)
  | setElemAttr (id : Nat) (k v : String)
  | removeElemAttr (id : Nat) (k : String)
  | setInner (id : Nat) (s : String)
  | appendChild (id : Nat)
deriving DecidableEq, Repr

/-- Models `HeadmasterProps`: one caller's declared head state (the Descriptor).
Object-valued fields carry a `Nat` reference id modelling JS object identity;
`none` models an absent (`undefined`) field. -/
structure Descriptor where
  title : Option String := none
  base : Option (Nat × AttrSet) := none
  meta : Option (Nat × List AttrSet) := none
  link : Option (Nat × List AttrSet) := none
  style : Option (Nat × List AttrSet) := none
  script : Option (Nat × List AttrSet) := none
  noscript : Option (Nat × List AttrSet) := none
  htmlAttributes : Option (Nat × StrAttrs) := none
  bodyAttributes : Option (Nat × StrAttrs) := none
deriving DecidableEq, Repr

/-- Source line 24: `const VALID_TAG_NAMES = ['base', 'meta', 'link', 'style', 'script',
'noscript']` (line 24). -/
def VALID_TAG_NAMES : List String :=
  ["base", "meta", "link", "style", "script", "noscript"]

/-- The runtime value of `headmasterData[tagName]`: absent, a single
attribute-set object (the `base` field), or an array of attribute sets. -/
inductive FieldVal where
  | absent
  | single (ref : Nat) (attrs : AttrSet)
  | seq (ref : Nat) (entries : List AttrSet)
deriving DecidableEq, Repr

/-- Dynamic field access `d[tagName]` for the six tag kinds. -/
def getTagField (d : Descriptor) : String → FieldVal
  | "base" =>
    match d.base with
    | some (r, a) => FieldVal.single r a
    | none => FieldVal.absent
  | "meta" =>
    match d.meta with
    | some (r, l) => FieldVal.seq r l
    | none => FieldVal.absent
  | "link" =>
    match d.link with
    | some (r, l) => FieldVal.seq r l
    | none => FieldVal.absent
  | "style" =>
    match d.style with
    | some (r, l) => FieldVal.seq r l
    | none => FieldVal.absent
  | "script" =>
    match d.script with
    | some (r, l) => FieldVal.seq r l
    | none => FieldVal.absent
  | "noscript" =>
    match d.noscript with
    | some (r, l) => FieldVal.seq r l
    | none => FieldVal.absent
  | _ => FieldVal.absent

/-- JS `!==` on two tag-field values (line 82): `undefined !== undefined` is
false; two objects differ exactly when their identities differ; an object is
never identical to `undefined`, and an array is never identical to a
non-array object. -/
def fieldRefChanged : FieldVal → FieldVal → Bool
  | FieldVal.absent, FieldVal.absent => false
  | FieldVal.single r _, FieldVal.single q _ => r != q
  | FieldVal.seq r _, FieldVal.seq q _ => r != q
  | _, _ => true

/-- JS `!==` on an optional object-valued field (lines 66, 72). -/
def refChangedOpt {α : Type} : Option (Nat × α) → Option (Nat × α) → Bool
  | none, none => false
  | some p, some q => p.1 != q.1
  | _, _ => true

/-- The state threaded through one apply pass: the document, the `elements`
array recorded for teardown (as node identities, in push order), and the log
of DOM mutations performed so far. -/
structure ApplyState where
  doc : Doc
  recorded : List Nat
  log : List Mutation
deriving DecidableEq, Repr

/-- Line 31: `document.head.querySelector` on `tagName + "[data-headmaster]"`:
the first child of the head whose tag name matches and which carries the
marker attribute. -/
def findMarked (els : List Element) (tag : String) : Option Element :=
  els.find? (fun e => e.tagName == tag && hasKey e.attrs "data-headmaster")

/-- Lines 32-44 of `createOrUpdateElement`, acting on an element value:
set the marker attribute, then for each submitted attribute remove it when
the value is `undefined` and set its string conversion otherwise, then set
`innerHTML` when provided.  Also returns the mutation log of these writes. -/
def syncStep (eid : Nat) (p : Element × List Mutation) (kv : String × AttrVal) :
    Element × List Mutation :=
  match kv.2 with
  | AttrVal.undef =>
    ({ p.1 with attrs := removeAttr p.1.attrs kv.1 },
      p.2 ++ [Mutation.removeElemAttr eid kv.1])
  | v =>
    ({ p.1 with attrs := setAttr p.1.attrs kv.1 (jsString v) },
      p.2 ++ [Mutation.setElemAttr eid kv.1 (jsString v)])

def syncElement (e : Element) (attributes : AttrSet) (innerHTML : Option String) :
    Element × List Mutation :=
  let e1 : Element := { e with attrs := setAttr e.attrs "data-headmaster" "" }
  let start : Element × List Mutation :=
    (e1, [Mutation.setElemAttr e.id "data-headmaster" ""])
  let mid : Element × List Mutation := attributes.foldl (syncStep e.id) start
  match innerHTML with
  | some s => ({ mid.1 with inner := some s }, mid.2 ++ [Mutation.setInner e.id s])
  | none => mid

/-- Replace the element with the given identity in the head, in place. -/
def replaceElem (els : List Element) (e : Element) : List Element :=
  els.map (fun x => if x.id == e.id then e else x)

/-- Function `createOrUpdateElement` (lines 30-47): reuse the first marker-tagged
element of that tag name already in the head if one exists (mutating it in
place), otherwise create a fresh element; then perform the attribute sync.
Returns the updated state together with the element (line 46). -/
def createOrUpdateElement (st : ApplyState) (tagName : String) (attributes : AttrSet)
    (innerHTML : Option String) : ApplyState × Element :=
  match findMarked st.doc.headElems tagName with
  | some e0 =>
    let p := syncElement e0 attributes innerHTML
    ({ st with
        doc := { st.doc with headElems := replaceElem st.doc.headElems p.1 },
        log := st.log ++ p.2 }, p.1)
  | none =>
    let e0 : Element :=
      { id := st.doc.nextId, tagName := tagName, attrs := [], inner := none }
    let p := syncElement e0 attributes innerHTML
    ({ st with
        doc := { st.doc with nextId := st.doc.nextId + 1 },
        log := st.log ++ [Mutation.createElem e0.id tagName] ++ p.2 }, p.1)

/-- Models `document.head.appendChild(element)`: detach the node from the head if it
is already there and append it at the end. -/
def appendChild (st : ApplyState) (e : Element) : ApplyState :=
  { st with
      doc := { st.doc with
        headElems := st.doc.headElems.filter (fun x => x.id != e.id) ++ [e] },
      log := st.log ++ [Mutation.appendChild e.id] }

/-- Lines 85-87 / 90-92: locate-or-create the Managed Element, append it to
the head, and push it onto the `elements` array. -/
def processEntry (st : ApplyState) (tagName : String) (attributes : AttrSet) :
    ApplyState :=
  let p := createOrUpdateElement st tagName attributes none
  let st2 := appendChild p.1 p.2
  { st2 with recorded := st2.recorded ++ [p.2.id] }

/-- One iteration of the `VALID_TAG_NAMES.forEach` loop (lines 78-95):
when the field's reference changed, process each entry of an array field in
order, or the single object once; an absent field does nothing. -/
def processTag (st : ApplyState) (next prev : Descriptor) (tagName : String) :
    ApplyState :=
  let cur := getTagField next tagName
  let prv := getTagField prev tagName
  if fieldRefChanged cur prv then
    match cur with
    | FieldVal.seq _ entries =>
      entries.foldl (fun s a => processEntry s tagName a) st
    | FieldVal.single _ attrs => processEntry st tagName attrs
    | FieldVal.absent => st
  else st

/-- Lines 67-69: set each pair of the new `htmlAttributes` map on the root
element (`Object.entries(... || {}).forEach`). -/
def applyHtmlAttrs (st : ApplyState) (m : StrAttrs) : ApplyState :=
  m.foldl (fun s kv =>
    { s with
        doc := { s.doc with htmlAttrs := setAttr s.doc.htmlAttrs kv.1 kv.2 },
        log := s.log ++ [Mutation.setHtmlAttr kv.1 kv.2] }) st

/-- Lines 73-75: the same policy applied to the body element. -/
def applyBodyAttrs (st : ApplyState) (m : StrAttrs) : ApplyState :=
  m.foldl (fun s kv =>
    { s with
        doc := { s.doc with bodyAttrs := setAttr s.doc.bodyAttrs kv.1 kv.2 },
        log := s.log ++ [Mutation.setBodyAttr kv.1 kv.2] }) st

/-- Models `headmasterData.htmlAttributes || {}` (lines 67, 73). -/
def entriesOrEmpty (o : Option (Nat × StrAttrs)) : StrAttrs :=
  match o with
  | some p => p.2
  | none => []

/-- The browser-mode effect body of `useHeadmaster` (lines 59-97): diff the
new Descriptor against the previously applied one and mutate the document
for each changed field, in source order (title, root attributes, body
attributes, then the six tag kinds in `VALID_TAG_NAMES` order), recording
every appended element. -/
def applyEffect (doc0 : Doc) (prev next : Descriptor) : ApplyState :=
  let st0 : ApplyState := { doc := doc0, recorded := [], log := [] }
  let st1 :=
    if next.title ≠ prev.title then
      { st0 with
          doc := { st0.doc with title := next.title.getD "" },
          log := st0.log ++ [Mutation.setTitle (next.title.getD "")] }
    else st0
  let st2 :=
    if refChangedOpt next.htmlAttributes prev.htmlAttributes then
      applyHtmlAttrs st1 (entriesOrEmpty next.htmlAttributes)
    else st1
  let st3 :=
    if refChangedOpt next.bodyAttributes prev.bodyAttributes then
      applyBodyAttrs st2 (entriesOrEmpty next.bodyAttributes)
    else st2
  VALID_TAG_NAMES.foldl (fun s t => processTag s next prev t) st3

/-- The teardown closure returned by the effect (lines 99-105): for each
recorded element in push order, remove it from its parent if it still has
one. -/
def teardown (doc : Doc) (recIds : List Nat) : Doc :=
  recIds.foldl (fun d i =>
    if d.headElems.any (fun e => e.id == i) then
      { d with headElems := d.headElems.filter (fun e => e.id != i) }
    else d) doc

/-- Server-mode branch of the effect (line 55):
`serverHeadmasterData = { ...serverHeadmasterData, ...headmasterData }` —
every field present in the submitted Descriptor overwrites the Aggregate's
field, absent fields keep the Aggregate's value. -/
def serverMerge (agg next : Descriptor) : Descriptor where
  title := match next.title with | some t => some t | none => agg.title
  base := match next.base with | some b => some b | none => agg.base
  meta := match next.meta with | some m => some m | none => agg.meta
  link := match next.link with | some m => some m | none => agg.link
  style := match next.style with | some m => some m | none => agg.style
  script := match next.script with | some m => some m | none => agg.script
  noscript := match next.noscript with | some m => some m | none => agg.noscript
  htmlAttributes :=
    match next.htmlAttributes with | some m => some m | none => agg.htmlAttributes
  bodyAttributes :=
    match next.bodyAttributes with | some m => some m | none => agg.bodyAttributes

/-- Lines 133-135 / 138-140: render an attribute set as space-separated
`key="value"` pairs in key insertion order, values by string interpolation. -/
def renderAttrPairs (attrs : AttrSet) : String :=
  String.intercalate " "
    (attrs.map (fun kv => kv.1 ++ "=\"" ++ jsString kv.2 ++ "\""))

/-- The self-closing element emitted for one attribute set. -/
def renderTagString (tagName : String) (attrs : AttrSet) : String :=
  "<" ++ tagName ++ " " ++ renderAttrPairs attrs ++ " />"

/-- Function `renderServerHeadmaster` (lines 118-145), modelled as a state-passing
function on the Aggregate: throws unless the runtime is a server context,
otherwise emits the `<title>` block when the title is truthy followed by the
tag kinds in `VALID_TAG_NAMES` order, one self-closing element per entry.
The Aggregate is returned alongside the result; the source never writes
`serverHeadmasterData` here. -/
def renderServerHeadmaster (agg : Descriptor) (isServer : Bool) :
    Except String String × Descriptor :=
  if !isServer then
    (Except.error "renderServerHeadmaster should only be called on the server side",
      agg)
  else
    let s0 :=
      match agg.title with
      | some t => if t ≠ "" then "<title>" ++ t ++ "</title>" else ""
      | none => ""
    let s1 := VALID_TAG_NAMES.foldl (fun acc tagName =>
      match getTagField agg tagName with
      | FieldVal.seq _ entries =>
        entries.foldl (fun acc2 attrs => acc2 ++ renderTagString tagName attrs) acc
      | FieldVal.single _ attrs => acc ++ renderTagString tagName attrs
      | FieldVal.absent => acc) s0
    (Except.ok s1, agg)

/-- Spec-shaped description of the serializer's output for one tag kind
(§4.3 of the spec): one self-closing element per entry of a sequence field in
entry order, a single element for a single attribute set, nothing when the
field is absent. -/
def specKindOutput (agg : Descriptor) (tagName : String) : String :=
  match getTagField agg tagName with
  | FieldVal.seq _ entries => String.join (entries.map (fun a => renderTagString tagName a))
  | FieldVal.single _ attrs => renderTagString tagName attrs
  | FieldVal.absent => ""

/-- Spec-shaped description of the serializer's title block: emitted iff the
Aggregate's title is non-empty. -/
def specTitleOutput (agg : Descriptor) : String :=
  match agg.title with
  | some t => if t = "" then "" else "<title>" ++ t ++ "</title>"
  | none => ""

/-- Concrete example: a marker-tagged `meta` element with node identity 5. -/
def exMarkedMeta : Element :=
  { id := 5, tagName := "meta", attrs := [("data-headmaster", "")], inner := none }

/-- Concrete example: an apply state whose head already holds `exMarkedMeta`. -/
def exStateMarked : ApplyState :=
  { doc := { title := "", htmlAttrs := [], bodyAttrs := [],
             headElems := [exMarkedMeta], nextId := 6 },
    recorded := [], log := [] }

/-- Concrete example: two plain head elements with identities 0 and 1. -/
def exElem0 : Element := { id := 0, tagName := "meta", attrs := [], inner := none }

def exElem1 : Element := { id := 1, tagName := "link", attrs := [], inner := none }

/-- Concrete example: a document holding `exElem0` and `exElem1`. -/
def exDocTwo : Doc :=
  { title := "", htmlAttrs := [], bodyAttrs := [],
    headElems := [exElem0, exElem1], nextId := 2 }

/-- Concrete example: a document whose root element already carries an
attribute `old`. -/
def exDocOld : Doc :=
  { title := "", htmlAttrs := [("old", "1")], bodyAttrs := [],
    headElems := [], nextId := 0 }

/-- Concrete example: a Descriptor declaring one `meta` sequence with two
entries (reference id 0). -/
def exMetaTwoEntries : Descriptor :=
  { meta := some (0, [[("name", AttrVal.str "a")], [("name", AttrVal.str "b")]]) }

/-- The empty document, for concrete executions. -/
def emptyDoc : Doc :=
  { title := "", htmlAttrs := [], bodyAttrs := [], headElems := [], nextId := 0 }

end Headmaster

/-! ### Attribute-map lemmas -/
namespace Headmaster

theorem lookupAttr_setAttr (m : StrAttrs) (k v q : String) :
    lookupAttr (setAttr m k v) q = if q = k then some v else lookupAttr m q := by
  unfold setAttr lookupAttr
  by_cases ha : m.any (fun p => p.1 == k) = true
  · rw [if_pos ha]
    have hf : ∀ p : String × String,
        ((fun p : String × String => p.1 == q) ∘ fun p => if p.1 == k then (k, v) else p) p
          = (fun p : String × String => p.1 == q) p := by
      intro p
      by_cases hp : p.1 = k
      · simp [hp]
      · simp [hp]
    rw [List.find?_map, funext hf]
    by_cases hq : q = k
    · subst hq
      have hs : (m.find? (fun p => p.1 == q)).isSome := by
        rw [List.find?_isSome]
        rcases List.any_eq_true.mp ha with ⟨x, hx, hpx⟩
        exact ⟨x, hx, hpx⟩
      rcases Option.isSome_iff_exists.mp hs with ⟨p0, hp0⟩
      have hkey : p0.1 = q := by simpa using List.find?_some hp0
      simp [hp0, hkey]
    · rw [if_neg hq]
      cases hfind : m.find? (fun p => p.1 == q) with
      | none => simp
      | some p0 =>
        have hkey : p0.1 = q := by simpa using List.find?_some hfind
        have hpk : p0.1 ≠ k := by rw [hkey]; exact hq
        simp [hpk, hkey, hq]
  · rw [if_neg ha]
    rw [List.find?_append]
    have hnone : m.find? (fun p => p.1 == k) = none := by
      rw [List.find?_eq_none]
      intro x hx hpx
      exact ha (List.any_eq_true.mpr ⟨x, hx, hpx⟩)
    by_cases hq : q = k
    · subst hq
      simp [hnone]
    · have hkq : ((k : String) == q) = false := by
        simp only [beq_eq_false_iff_ne, ne_eq]
        exact fun h => hq h.symm
      cases hfind : m.find? (fun p => p.1 == q) with
      | none => simp [hfind, List.find?, hkq, hq]
      | some p0 => simp [hfind, hq]

theorem hasKey_setAttr (m : StrAttrs) (k v q : String) :
    hasKey (setAttr m k v) q = (hasKey m q || (q == k)) := by
  unfold setAttr hasKey
  by_cases ha : m.any (fun p => p.1 == k) = true
  · rw [if_pos ha, List.any_map]
    have hf : ∀ p : String × String,
        ((fun p : String × String => p.1 == q) ∘ fun p => if p.1 == k then (k, v) else p) p
          = (fun p : String × String => p.1 == q) p := by
      intro p
      by_cases hp : p.1 = k
      · simp [hp]
      · simp [hp]
    rw [funext hf]
    by_cases hq : q = k
    · subst hq
      rcases List.any_eq_true.mp ha with ⟨x, hx, hpx⟩
      have hm : m.any (fun p => p.1 == q) = true := List.any_eq_true.mpr ⟨x, hx, hpx⟩
      simp [hm]
    · simp [hq]
  · rw [if_neg ha, List.any_append]
    by_cases hq : q = k
    · subst hq
      simp
    · have hkq : ((k : String) == q) = false := by
        simp only [beq_eq_false_iff_ne, ne_eq]
        exact fun h => hq h.symm
      simp [hkq, BEq.comm]

end Headmaster
namespace Headmaster

/-- Folding `setAttr` over a pair list whose keys avoid `q` leaves `q`'s
lookup unchanged. -/
theorem lookupAttr_foldl_setAttr_notMem (l : StrAttrs) (m : StrAttrs) (q : String)
    (h : ∀ p ∈ l, p.1 ≠ q) :
    lookupAttr (l.foldl (fun a p => setAttr a p.1 p.2) m) q = lookupAttr m q := by
  induction l generalizing m with
  | nil => rfl
  | cons p rest ih =>
    have hp : p.1 ≠ q := h p (List.mem_cons_self p rest)
    have hq : q ≠ p.1 := fun hh => hp hh.symm
    rw [List.foldl_cons, ih _ (fun x hx => h x (List.mem_cons_of_mem p hx)),
      lookupAttr_setAttr, if_neg hq]

/-- With unique keys, folding `setAttr` over a pair list makes every pair's
key look up to exactly its value. -/
theorem lookupAttr_foldl_setAttr_mem (l : StrAttrs) (m : StrAttrs) (k v : String)
    (hnd : (l.map Prod.fst).Nodup) (hmem : (k, v) ∈ l) :
    lookupAttr (l.foldl (fun a p => setAttr a p.1 p.2) m) k = some v := by
  induction l generalizing m with
  | nil => cases hmem
  | cons p rest ih =>
    rw [List.map_cons, List.nodup_cons] at hnd
    rcases List.mem_cons.mp hmem with hh | ht
    · subst hh
      rw [List.foldl_cons]
      have hrest : ∀ x ∈ rest, x.1 ≠ k := by
        intro x hx hxk
        have hxm : x.1 ∈ rest.map Prod.fst := List.mem_map_of_mem Prod.fst hx
        rw [hxk] at hxm
        exact hnd.1 hxm
      rw [lookupAttr_foldl_setAttr_notMem rest _ k hrest, lookupAttr_setAttr, if_pos rfl]
    · rw [List.foldl_cons]
      exact ih _ hnd.2 ht

/-- Key presence `hasKey` is monotone under a `setAttr` fold. -/
theorem hasKey_foldl_setAttr (l : StrAttrs) (m : StrAttrs) (q : String)
    (h : hasKey m q = true) :
    hasKey (l.foldl (fun a p => setAttr a p.1 p.2) m) q = true := by
  induction l generalizing m with
  | nil => exact h
  | cons p rest ih =>
    rw [List.foldl_cons]
    exact ih _ (by rw [hasKey_setAttr, h, Bool.true_or])

end Headmaster
namespace Headmaster

/-- Processing one tag entry never touches the document title or the
root/body attributes. -/
theorem processEntry_doc_proj (st : ApplyState) (tag : String) (a : AttrSet) :
    (processEntry st tag a).doc.title = st.doc.title ∧
    (processEntry st tag a).doc.htmlAttrs = st.doc.htmlAttrs ∧
    (processEntry st tag a).doc.bodyAttrs = st.doc.bodyAttrs := by
  unfold processEntry appendChild createOrUpdateElement
  cases hf : findMarked st.doc.headElems tag <;> simp

/-- Processing one tag entry pushes exactly one element id. -/
theorem processEntry_recorded (st : ApplyState) (tag : String) (a : AttrSet) :
    (processEntry st tag a).recorded
      = st.recorded ++ [(createOrUpdateElement st tag a none).2.id] := by
  unfold processEntry appendChild createOrUpdateElement
  cases hf : findMarked st.doc.headElems tag <;> simp

theorem foldlEntries_doc_proj (entries : List AttrSet) (tag : String) (st : ApplyState) :
    ((entries.foldl (fun s a => processEntry s tag a) st).doc.title = st.doc.title) ∧
    ((entries.foldl (fun s a => processEntry s tag a) st).doc.htmlAttrs = st.doc.htmlAttrs) ∧
    ((entries.foldl (fun s a => processEntry s tag a) st).doc.bodyAttrs = st.doc.bodyAttrs) := by
  induction entries generalizing st with
  | nil => exact ⟨rfl, rfl, rfl⟩
  | cons a rest ih =>
    rw [List.foldl_cons]
    rcases ih (processEntry st tag a) with ⟨h1, h2, h3⟩
    rcases processEntry_doc_proj st tag a with ⟨g1, g2, g3⟩
    exact ⟨h1.trans g1, h2.trans g2, h3.trans g3⟩

theorem foldlEntries_recorded_length (entries : List AttrSet) (tag : String) (st : ApplyState) :
    ((entries.foldl (fun s a => processEntry s tag a) st).recorded).length
      = st.recorded.length + entries.length := by
  induction entries generalizing st with
  | nil => rfl
  | cons a rest ih =>
    rw [List.foldl_cons, ih (processEntry st tag a), processEntry_recorded]
    simp
    omega

theorem processTag_doc_proj (st : ApplyState) (next prev : Descriptor) (tag : String) :
    (processTag st next prev tag).doc.title = st.doc.title ∧
    (processTag st next prev tag).doc.htmlAttrs = st.doc.htmlAttrs ∧
    (processTag st next prev tag).doc.bodyAttrs = st.doc.bodyAttrs := by
  unfold processTag
  by_cases hc : fieldRefChanged (getTagField next tag) (getTagField prev tag) = true
  · rw [if_pos hc]
    cases hf : getTagField next tag with
    | absent => exact ⟨rfl, rfl, rfl⟩
    | single r attrs => exact processEntry_doc_proj st tag attrs
    | seq r entries => exact foldlEntries_doc_proj entries tag st
  · rw [if_neg hc]
    exact ⟨rfl, rfl, rfl⟩

theorem foldlTags_doc_proj (l : List String) (next prev : Descriptor) (st : ApplyState) :
    ((l.foldl (fun s t => processTag s next prev t) st).doc.title = st.doc.title) ∧
    ((l.foldl (fun s t => processTag s next prev t) st).doc.htmlAttrs = st.doc.htmlAttrs) ∧
    ((l.foldl (fun s t => processTag s next prev t) st).doc.bodyAttrs = st.doc.bodyAttrs) := by
  induction l generalizing st with
  | nil => exact ⟨rfl, rfl, rfl⟩
  | cons t rest ih =>
    rw [List.foldl_cons]
    rcases ih (processTag st next prev t) with ⟨h1, h2, h3⟩
    rcases processTag_doc_proj st next prev t with ⟨g1, g2, g3⟩
    exact ⟨h1.trans g1, h2.trans g2, h3.trans g3⟩

theorem applyHtmlAttrs_proj (m : StrAttrs) (st : ApplyState) :
    ((applyHtmlAttrs st m).doc.title = st.doc.title) ∧
    ((applyHtmlAttrs st m).doc.bodyAttrs = st.doc.bodyAttrs) ∧
    ((applyHtmlAttrs st m).doc.htmlAttrs
      = m.foldl (fun a kv => setAttr a kv.1 kv.2) st.doc.htmlAttrs) := by
  unfold applyHtmlAttrs
  induction m generalizing st with
  | nil => exact ⟨rfl, rfl, rfl⟩
  | cons kv rest ih =>
    rw [List.foldl_cons, List.foldl_cons]
    rcases ih ({ st with
        doc := { st.doc with htmlAttrs := setAttr st.doc.htmlAttrs kv.1 kv.2 },
        log := st.log ++ [Mutation.setHtmlAttr kv.1 kv.2] }) with ⟨h1, h2, h3⟩
    exact ⟨h1, h2, h3⟩

theorem applyBodyAttrs_proj (m : StrAttrs) (st : ApplyState) :
    ((applyBodyAttrs st m).doc.title = st.doc.title) ∧
    ((applyBodyAttrs st m).doc.htmlAttrs = st.doc.htmlAttrs) ∧
    ((applyBodyAttrs st m).doc.bodyAttrs
      = m.foldl (fun a kv => setAttr a kv.1 kv.2) st.doc.bodyAttrs) := by
  unfold applyBodyAttrs
  induction m generalizing st with
  | nil => exact ⟨rfl, rfl, rfl⟩
  | cons kv rest ih =>
    rw [List.foldl_cons, List.foldl_cons]
    rcases ih ({ st with
        doc := { st.doc with bodyAttrs := setAttr st.doc.bodyAttrs kv.1 kv.2 },
        log := st.log ++ [Mutation.setBodyAttr kv.1 kv.2] }) with ⟨h1, h2, h3⟩
    exact ⟨h1, h2, h3⟩

/-- What one apply pass does to `document.title`. -/
theorem applyEffect_title_eq (doc : Doc) (prev next : Descriptor) :
    (applyEffect doc prev next).doc.title
      = (if next.title ≠ prev.title then next.title.getD "" else doc.title) := by
  unfold applyEffect
  rw [(foldlTags_doc_proj VALID_TAG_NAMES next prev _).1]
  by_cases hb : refChangedOpt next.bodyAttributes prev.bodyAttributes = true <;>
    by_cases hh : refChangedOpt next.htmlAttributes prev.htmlAttributes = true <;>
      by_cases ht : next.title ≠ prev.title <;>
        simp [hb, hh, ht, (applyBodyAttrs_proj _ _).1, (applyHtmlAttrs_proj _ _).1]

/-- What one apply pass does to the root element's attributes. -/
theorem applyEffect_htmlAttrs_eq (doc : Doc) (prev next : Descriptor) :
    (applyEffect doc prev next).doc.htmlAttrs
      = (if refChangedOpt next.htmlAttributes prev.htmlAttributes then
          (entriesOrEmpty next.htmlAttributes).foldl
            (fun a kv => setAttr a kv.1 kv.2) doc.htmlAttrs
        else doc.htmlAttrs) := by
  unfold applyEffect
  rw [(foldlTags_doc_proj VALID_TAG_NAMES next prev _).2.1]
  by_cases hb : refChangedOpt next.bodyAttributes prev.bodyAttributes = true <;>
    by_cases hh : refChangedOpt next.htmlAttributes prev.htmlAttributes = true <;>
      by_cases ht : next.title ≠ prev.title <;>
        simp [hb, hh, ht, (applyBodyAttrs_proj _ _).2.1, (applyHtmlAttrs_proj _ _).2.2]

/-- What one apply pass does to the body element's attributes. -/
theorem applyEffect_bodyAttrs_eq (doc : Doc) (prev next : Descriptor) :
    (applyEffect doc prev next).doc.bodyAttrs
      = (if refChangedOpt next.bodyAttributes prev.bodyAttributes then
          (entriesOrEmpty next.bodyAttributes).foldl
            (fun a kv => setAttr a kv.1 kv.2) doc.bodyAttrs
        else doc.bodyAttrs) := by
  unfold applyEffect
  rw [(foldlTags_doc_proj VALID_TAG_NAMES next prev _).2.2]
  by_cases hb : refChangedOpt next.bodyAttributes prev.bodyAttributes = true <;>
    by_cases hh : refChangedOpt next.htmlAttributes prev.htmlAttributes = true <;>
      by_cases ht : next.title ≠ prev.title <;>
        simp [hb, hh, ht, (applyBodyAttrs_proj _ _).2.2, (applyHtmlAttrs_proj _ _).2.1]

end Headmaster
namespace Headmaster

/-- One step of the teardown loop detaches exactly the elements with the
given node identity, whether or not the guard fires. -/
theorem teardownStep_headElems (d : Doc) (i : Nat) :
    (if d.headElems.any (fun e => e.id == i) then
      { d with headElems := d.headElems.filter (fun e => e.id != i) }
    else d)
      = { d with headElems := d.headElems.filter (fun e => e.id != i) } := by
  by_cases h : d.headElems.any (fun e => e.id == i) = true
  · rw [if_pos h]
  · rw [if_neg h]
    have : d.headElems.filter (fun e => e.id != i) = d.headElems := by
      apply List.filter_eq_self.mpr
      intro e he
      have : (e.id == i) = false := by
        by_contra hc
        exact h (List.any_eq_true.mpr ⟨e, he, by simpa using hc⟩)
      simpa using this
    rw [this]

/-- The teardown action is exactly a filter: it keeps the head children whose
identity was not recorded and removes the rest, touching nothing else. -/
theorem teardown_eq (doc : Doc) (recIds : List Nat) :
    teardown doc recIds
      = { doc with headElems :=
            doc.headElems.filter (fun e => !(recIds.contains e.id)) } := by
  unfold teardown
  induction recIds generalizing doc with
  | nil =>
    simp
  | cons i rest ih =>
    rw [List.foldl_cons, teardownStep_headElems, ih]
    simp only [List.filter_filter]
    congr 1
    apply List.filter_congr
    intro e he
    simp only [List.contains_cons, Bool.not_or]
    cases hei : (e.id == i) with
    | false =>
      have hne : ¬ e.id = i := by simpa using hei
      simp [hei, hne]
    | true =>
      have heq : e.id = i := by simpa using hei
      simp [hei, heq]

end Headmaster
namespace Headmaster

/-- The attribute sync never changes which node it works on. -/
theorem syncFold_id (l : AttrSet) (eid : Nat) (p : Element × List Mutation) :
    ((l.foldl (syncStep eid) p).1).id = (p.1).id := by
  induction l generalizing p with
  | nil => rfl
  | cons kv rest ih =>
    rw [List.foldl_cons]
    refine (ih _).trans ?_
    obtain ⟨k, v⟩ := kv
    cases v <;> simp [syncStep]

theorem syncElement_id (e : Element) (a : AttrSet) (ih : Option String) :
    ((syncElement e a ih).1).id = e.id := by
  unfold syncElement
  cases ih <;> simp [syncFold_id]

/-- When a marker-tagged element of the requested tag name is already in the
head, `createOrUpdateElement` returns that node (same identity) and creates
nothing (`nextId` unchanged). -/
theorem createOrUpdateElement_found (st : ApplyState) (tag : String) (a : AttrSet)
    (ih : Option String) (e0 : Element)
    (h : findMarked st.doc.headElems tag = some e0) :
    ((createOrUpdateElement st tag a ih).2).id = e0.id ∧
    (createOrUpdateElement st tag a ih).1.doc.nextId = st.doc.nextId := by
  unfold createOrUpdateElement
  rw [h]
  exact ⟨syncElement_id e0 a ih, rfl⟩

/-- When no marker-tagged element of that tag name is in the head,
`createOrUpdateElement` creates a fresh node. -/
theorem createOrUpdateElement_notFound (st : ApplyState) (tag : String) (a : AttrSet)
    (ih : Option String)
    (h : findMarked st.doc.headElems tag = none) :
    ((createOrUpdateElement st tag a ih).2).id = st.doc.nextId ∧
    (createOrUpdateElement st tag a ih).1.doc.nextId = st.doc.nextId + 1 := by
  unfold createOrUpdateElement
  rw [h]
  exact ⟨syncElement_id _ a ih, rfl⟩

/-- A key assigned the JS value `undefined` is removed from the element by
the browser-mode attribute sync (contrast with the server serializer). -/
theorem hasKey_removeAttr (m : StrAttrs) (k : String) :
    hasKey (removeAttr m k) k = false := by
  unfold hasKey removeAttr
  rw [Bool.eq_false_iff]
  intro hc
  rcases List.any_eq_true.mp hc with ⟨p, hp, hpk⟩
  rcases List.mem_filter.mp hp with ⟨hmem, hne⟩
  have h1 : p.1 = k := by simpa using hpk
  simp [h1] at hne

theorem syncElement_undef_removes (e : Element) (k : String) :
    hasKey ((syncElement e [(k, AttrVal.undef)] none).1).attrs k = false := by
  unfold syncElement
  simp only [List.foldl_cons, List.foldl_nil]
  exact hasKey_removeAttr _ k

end Headmaster
namespace Headmaster

theorem foldl_append_shift (l : List String) (a b : String) :
    l.foldl (fun x y => x ++ y) (a ++ b) = a ++ l.foldl (fun x y => x ++ y) b := by
  induction l generalizing b with
  | nil => rfl
  | cons c rest ih =>
    rw [List.foldl_cons, List.foldl_cons, String.append_assoc, ih]

theorem join_cons_eq (a : String) (l : List String) :
    String.join (a :: l) = a ++ String.join l := by
  show List.foldl (fun x y => x ++ y) ("" ++ a) l = a ++ List.foldl (fun x y => x ++ y) "" l
  rw [String.empty_append, ← String.append_empty a, foldl_append_shift, String.append_empty]

/-- Accumulating a function's outputs by `+=` over a list is appending the
join of its mapped outputs. -/
theorem foldl_append_eq_join {α : Type} (f : α → String) (l : List α) (acc : String) :
    l.foldl (fun a x => a ++ f x) acc = acc ++ String.join (l.map f) := by
  induction l generalizing acc with
  | nil => rw [List.foldl_nil, List.map_nil, String.join, List.foldl_nil, String.append_empty]
  | cons x rest ih =>
    rw [List.foldl_cons, List.map_cons, ih, join_cons_eq, String.append_assoc]

theorem renderStep_eq (agg : Descriptor) (tagName : String) (acc : String) :
    (match getTagField agg tagName with
      | FieldVal.seq _ entries =>
        entries.foldl (fun acc2 attrs => acc2 ++ renderTagString tagName attrs) acc
      | FieldVal.single _ attrs => acc ++ renderTagString tagName attrs
      | FieldVal.absent => acc)
      = acc ++ specKindOutput agg tagName := by
  unfold specKindOutput
  cases h : getTagField agg tagName with
  | absent => rw [String.append_empty]
  | single r attrs => rfl
  | seq r entries => exact foldl_append_eq_join _ entries acc

end Headmaster
namespace Headmaster

theorem fieldRefChanged_self (fv : FieldVal) : fieldRefChanged fv fv = false := by
  cases fv <;> simp [fieldRefChanged]

theorem refChangedOpt_self {α : Type} (o : Option (Nat × α)) :
    refChangedOpt o o = false := by
  cases o <;> simp [refChangedOpt]

/-- C1: server-mode merging is a shallow overwrite: every top-level field
present in the submitted Descriptor becomes exactly the Aggregate's field,
and after `merge(A)` then `merge(B)` where `B` declares `meta`, the
Aggregate's `meta` is exactly `B`'s (A's entries are gone). -/
theorem serverMerge_shallow_overwrite :
    (∀ agg next : Descriptor,
      (next.title.isSome → (serverMerge agg next).title = next.title) ∧
      (next.base.isSome → (serverMerge agg next).base = next.base) ∧
      (next.meta.isSome → (serverMerge agg next).meta = next.meta) ∧
      (next.link.isSome → (serverMerge agg next).link = next.link) ∧
      (next.style.isSome → (serverMerge agg next).style = next.style) ∧
      (next.script.isSome → (serverMerge agg next).script = next.script) ∧
      (next.noscript.isSome → (serverMerge agg next).noscript = next.noscript) ∧
      (next.htmlAttributes.isSome →
        (serverMerge agg next).htmlAttributes = next.htmlAttributes) ∧
      (next.bodyAttributes.isSome →
        (serverMerge agg next).bodyAttributes = next.bodyAttributes)) ∧
    (∀ (agg A B : Descriptor) (r : Nat) (m : List AttrSet),
      B.meta = some (r, m) → (serverMerge (serverMerge agg A) B).meta = some (r, m)) := by
  constructor
  · intro agg next
    refine ⟨?_, ?_, ?_, ?_, ?_, ?_, ?_, ?_, ?_⟩
    · intro h
      cases hx : next.title with
      | some t => simp [serverMerge, hx]
      | none => rw [hx] at h; simp at h
    · intro h
      cases hx : next.base with
      | some t => simp [serverMerge, hx]
      | none => rw [hx] at h; simp at h
    · intro h
      cases hx : next.meta with
      | some t => simp [serverMerge, hx]
      | none => rw [hx] at h; simp at h
    · intro h
      cases hx : next.link with
      | some t => simp [serverMerge, hx]
      | none => rw [hx] at h; simp at h
    · intro h
      cases hx : next.style with
      | some t => simp [serverMerge, hx]
      | none => rw [hx] at h; simp at h
    · intro h
      cases hx : next.script with
      | some t => simp [serverMerge, hx]
      | none => rw [hx] at h; simp at h
    · intro h
      cases hx : next.noscript with
      | some t => simp [serverMerge, hx]
      | none => rw [hx] at h; simp at h
    · intro h
      cases hx : next.htmlAttributes with
      | some t => simp [serverMerge, hx]
      | none => rw [hx] at h; simp at h
    · intro h
      cases hx : next.bodyAttributes with
      | some t => simp [serverMerge, hx]
      | none => rw [hx] at h; simp at h
  · intro agg A B r m hB
    simp [serverMerge, hB]

/-- Witness for C1 at a concrete input: `A` declares two `meta` entries, `B`
declares one; after both merges the Aggregate's `meta` is exactly `B`'s. -/
theorem serverMerge_shallow_overwrite_witness :
    (serverMerge
        (serverMerge {}
          { meta := some (0, [[("k", AttrVal.str "a")], [("k2", AttrVal.str "x")]]) })
        { meta := some (1, [[("k", AttrVal.str "b")]]) }).meta
      = some (1, [[("k", AttrVal.str "b")]]) :=
  serverMerge_shallow_overwrite.2 _ _ _ 1 _ rfl

/-- C2: invoking the serializer while the runtime is a browser context fails
with the documented error and leaves the Aggregate unchanged; in a server
context it never fails (the only explicit reported failure of the system). -/
theorem renderServerHeadmaster_browser_only :
    (∀ agg : Descriptor,
      renderServerHeadmaster agg false
        = (Except.error "renderServerHeadmaster should only be called on the server side",
            agg)) ∧
    (∀ agg : Descriptor, ∃ s, (renderServerHeadmaster agg true).1 = Except.ok s) :=
  ⟨fun _ => rfl, fun _ => ⟨_, rfl⟩⟩

/-- C3: the serializer's output is the `<title>` block (emitted iff the
title is non-empty) followed by the six tag kinds in the fixed order
base, meta, link, style, script, noscript, each sequence in entry order;
it returns the Aggregate unchanged; and on the spec's example Aggregate it
returns exactly the spec's example string. -/
theorem renderServerHeadmaster_structure :
    (∀ agg : Descriptor,
      renderServerHeadmaster agg true
        = (Except.ok (specTitleOutput agg
            ++ specKindOutput agg "base" ++ specKindOutput agg "meta"
            ++ specKindOutput agg "link" ++ specKindOutput agg "style"
            ++ specKindOutput agg "script" ++ specKindOutput agg "noscript"), agg)) ∧
    renderServerHeadmaster
        { title := some "T",
          meta := some (0, [[("name", AttrVal.str "d"), ("content", AttrVal.str "c")]]) }
        true
      = (Except.ok "<title>T</title><meta name=\"d\" content=\"c\" />",
          { title := some "T",
            meta := some (0, [[("name", AttrVal.str "d"), ("content", AttrVal.str "c")]]) }) := by
  constructor
  · intro agg
    show (Except.ok _, agg) = _
    simp only [VALID_TAG_NAMES, List.foldl_cons, List.foldl_nil]
    rw [renderStep_eq, renderStep_eq, renderStep_eq, renderStep_eq, renderStep_eq,
      renderStep_eq]
    have ht : (match agg.title with
        | some t => if t ≠ "" then "<title>" ++ t ++ "</title>" else ""
        | none => "") = specTitleOutput agg := by
      unfold specTitleOutput
      cases hx : agg.title with
      | none => rfl
      | some t =>
        by_cases he : t = "" <;> simp [he]
    rw [ht]
  · rfl

/-- C4: browser-mode change detection is per-field reference equality:
re-applying the very same Descriptor performs zero DOM mutations (empty
mutation log, no recorded elements, document untouched), while a field whose
new value is a different reference is reapplied even when its contents are
identical (one element is processed per entry of the sequence). -/
theorem applyEffect_reference_equality :
    (∀ (doc : Doc) (d : Descriptor),
      applyEffect doc d d = { doc := doc, recorded := [], log := [] }) ∧
    (∀ (doc : Doc) (r1 r2 : Nat) (l : List AttrSet), r1 ≠ r2 →
      (applyEffect doc { meta := some (r1, l) } { meta := some (r2, l) }).recorded.length
        = l.length) := by
  constructor
  · intro doc d
    simp [applyEffect, refChangedOpt_self, VALID_TAG_NAMES, processTag,
      fieldRefChanged_self]
  · intro doc r1 r2 l hne
    have hbne : (r2 != r1) = true := by
      simp only [bne_iff_ne, ne_eq]
      exact fun h => hne h.symm
    have hb : getTagField ({ meta := some (r2, l) } : Descriptor) "base"
        = FieldVal.absent := rfl
    have hb1 : getTagField ({ meta := some (r1, l) } : Descriptor) "base"
        = FieldVal.absent := rfl
    have hm : getTagField ({ meta := some (r2, l) } : Descriptor) "meta"
        = FieldVal.seq r2 l := rfl
    have hm1 : getTagField ({ meta := some (r1, l) } : Descriptor) "meta"
        = FieldVal.seq r1 l := rfl
    have hrest : ∀ t ∈ (["link", "style", "script", "noscript"] : List String),
        getTagField ({ meta := some (r2, l) } : Descriptor) t = FieldVal.absent ∧
        getTagField ({ meta := some (r1, l) } : Descriptor) t = FieldVal.absent := by
      intro t htmem
      fin_cases htmem <;> exact ⟨rfl, rfl⟩
    simp only [applyEffect, VALID_TAG_NAMES, List.foldl_cons, List.foldl_nil,
      processTag, hb, hb1, hm, hm1,
      (hrest "link" (by simp)).1, (hrest "link" (by simp)).2,
      (hrest "style" (by simp)).1, (hrest "style" (by simp)).2,
      (hrest "script" (by simp)).1, (hrest "script" (by simp)).2,
      (hrest "noscript" (by simp)).1, (hrest "noscript" (by simp)).2,
      fieldRefChanged, refChangedOpt, hbne]
    simp [foldlEntries_recorded_length]

/-- Witness for C4: with identical one-entry contents under two distinct
references, the apply pass processes exactly one element. -/
theorem applyEffect_reference_equality_witness :
    (applyEffect emptyDoc { meta := some (0, [[("name", AttrVal.str "x")]]) }
      { meta := some (1, [[("name", AttrVal.str "x")]]) }).recorded.length = 1 := by
  have h := applyEffect_reference_equality.2 emptyDoc 0 1 [[("name", AttrVal.str "x")]]
    (by decide)
  simpa using h

end Headmaster
namespace Headmaster

/-- C5: locating a Managed Element unconditionally reuses the first
marker-tagged element of that tag name already in the head (same node
identity, nothing created), creates a fresh element only otherwise, and the
lookup does not exclude elements claimed by earlier entries of the same
pass: applying one `meta` sequence with two entries resolves both entries to
the same element (the same identity is recorded twice, and only one element
ends up in the head). -/
theorem createOrUpdateElement_unconditional_reuse :
    (∀ (st : ApplyState) (tag : String) (a : AttrSet) (ih : Option String)
        (e0 : Element),
      findMarked st.doc.headElems tag = some e0 →
        ((createOrUpdateElement st tag a ih).2).id = e0.id ∧
        (createOrUpdateElement st tag a ih).1.doc.nextId = st.doc.nextId) ∧
    (∀ (st : ApplyState) (tag : String) (a : AttrSet) (ih : Option String),
      findMarked st.doc.headElems tag = none →
        ((createOrUpdateElement st tag a ih).2).id = st.doc.nextId ∧
        (createOrUpdateElement st tag a ih).1.doc.nextId = st.doc.nextId + 1) ∧
    ((applyEffect emptyDoc {} exMetaTwoEntries).recorded = [0, 0] ∧
      (applyEffect emptyDoc {} exMetaTwoEntries).doc.headElems.length = 1) := by
  refine ⟨fun st tag a ih e0 h => createOrUpdateElement_found st tag a ih e0 h,
    fun st tag a ih h => createOrUpdateElement_notFound st tag a ih h, ?_, ?_⟩ <;> decide

/-- Witness for C5 at a concrete input: a marker-tagged `meta` element with
identity 5 is already in the head, and the locate step returns exactly that
node without consuming a fresh identity. -/
theorem createOrUpdateElement_unconditional_reuse_witness :
    ((createOrUpdateElement exStateMarked "meta" [] none).2).id = 5 :=
  (createOrUpdateElement_unconditional_reuse.1 exStateMarked "meta" [] none
    exMarkedMeta (by decide)).1

/-- C6: invoking the teardown action removes from the head every element
whose identity was recorded by the apply call, and removes no element that
was not recorded. -/
theorem teardown_removes_exactly_recorded :
    ∀ (doc : Doc) (recIds : List Nat),
      (∀ e, e ∈ doc.headElems → e.id ∈ recIds →
        e ∉ (teardown doc recIds).headElems) ∧
      (∀ e, e ∈ doc.headElems → e.id ∉ recIds →
        e ∈ (teardown doc recIds).headElems) := by
  intro doc recIds
  rw [teardown_eq]
  constructor
  · intro e hmem hin hcontra
    have h2 := (List.mem_filter.mp hcontra).2
    simp at h2
    exact h2 hin
  · intro e hmem hnin
    apply List.mem_filter.mpr
    refine ⟨hmem, ?_⟩
    simp
    exact hnin

/-- Witness for C6 at a concrete input: of two head elements, teardown with
recorded identity 0 removes exactly the element with identity 0 and keeps
the other. -/
theorem teardown_removes_exactly_recorded_witness :
    exElem0 ∉ (teardown exDocTwo [0]).headElems ∧
    exElem1 ∈ (teardown exDocTwo [0]).headElems :=
  ⟨(teardown_removes_exactly_recorded exDocTwo [0]).1 exElem0 (by decide) (by decide),
    (teardown_removes_exactly_recorded exDocTwo [0]).2 exElem1 (by decide) (by decide)⟩

/-- C7: when `htmlAttributes` (resp. `bodyAttributes`) has changed, the
apply pass sets every key/value pair of the new map on the root (resp. body)
element, and keys present before the pass are never removed: root/body
attribute application is a monotonic merge. -/
theorem applyEffect_rootBody_monotonic :
    ∀ (doc : Doc) (prev next : Descriptor),
      ((refChangedOpt next.htmlAttributes prev.htmlAttributes = true →
          ((entriesOrEmpty next.htmlAttributes).map Prod.fst).Nodup →
          ∀ kv ∈ entriesOrEmpty next.htmlAttributes,
            lookupAttr (applyEffect doc prev next).doc.htmlAttrs kv.1 = some kv.2) ∧
        (∀ k, hasKey doc.htmlAttrs k = true →
          hasKey (applyEffect doc prev next).doc.htmlAttrs k = true)) ∧
      ((refChangedOpt next.bodyAttributes prev.bodyAttributes = true →
          ((entriesOrEmpty next.bodyAttributes).map Prod.fst).Nodup →
          ∀ kv ∈ entriesOrEmpty next.bodyAttributes,
            lookupAttr (applyEffect doc prev next).doc.bodyAttrs kv.1 = some kv.2) ∧
        (∀ k, hasKey doc.bodyAttrs k = true →
          hasKey (applyEffect doc prev next).doc.bodyAttrs k = true)) := by
  intro doc prev next
  refine ⟨⟨?_, ?_⟩, ⟨?_, ?_⟩⟩
  · intro hch hnd kv hkv
    rw [applyEffect_htmlAttrs_eq, if_pos hch]
    exact lookupAttr_foldl_setAttr_mem _ _ kv.1 kv.2 hnd hkv
  · intro k hk
    rw [applyEffect_htmlAttrs_eq]
    by_cases hch : refChangedOpt next.htmlAttributes prev.htmlAttributes = true
    · rw [if_pos hch]
      exact hasKey_foldl_setAttr _ _ k hk
    · rw [if_neg hch]
      exact hk
  · intro hch hnd kv hkv
    rw [applyEffect_bodyAttrs_eq, if_pos hch]
    exact lookupAttr_foldl_setAttr_mem _ _ kv.1 kv.2 hnd hkv
  · intro k hk
    rw [applyEffect_bodyAttrs_eq]
    by_cases hch : refChangedOpt next.bodyAttributes prev.bodyAttributes = true
    · rw [if_pos hch]
      exact hasKey_foldl_setAttr _ _ k hk
    · rw [if_neg hch]
      exact hk

/-- Witness for C7 at a concrete input: with a changed `htmlAttributes` map,
the new pair is set on the root element and the stale key `old` (absent from
the new map) survives the pass. -/
theorem applyEffect_rootBody_monotonic_witness :
    lookupAttr (applyEffect exDocOld {}
        { htmlAttributes := some (0, [("lang", "en")]) }).doc.htmlAttrs "lang"
      = some "en" ∧
    hasKey (applyEffect exDocOld {}
        { htmlAttributes := some (0, [("lang", "en")]) }).doc.htmlAttrs "old"
      = true :=
  ⟨(applyEffect_rootBody_monotonic exDocOld {}
        { htmlAttributes := some (0, [("lang", "en")]) }).1.1 (by decide) (by decide)
      ("lang", "en") (by decide),
    (applyEffect_rootBody_monotonic exDocOld {}
        { htmlAttributes := some (0, [("lang", "en")]) }).1.2 "old" (by decide)⟩

/-- C8: whenever the title field changed between the previous and the new
Descriptor, the apply pass sets the document's title to the new Descriptor's
title, or to the empty string if the new Descriptor has none. -/
theorem applyEffect_title_change (doc : Doc) (prev next : Descriptor)
    (h : next.title ≠ prev.title) :
    (applyEffect doc prev next).doc.title = next.title.getD "" := by
  rw [applyEffect_title_eq, if_pos h]

/-- Witness for C8 at a concrete input. -/
theorem applyEffect_title_change_witness :
    (applyEffect emptyDoc {} { title := some "T" }).doc.title = "T" := by
  have h := applyEffect_title_change emptyDoc {} { title := some "T" } (by decide)
  simpa using h

/-- C9: the serializer emits a `key="value"` pair for every key of an
attribute set, converting values by string interpolation — `undefined`
renders as `key="undefined"` and boolean `false` as `key="false"` — instead
of omitting or removing the attribute as the browser-mode sync does for an
`undefined` value. -/
theorem renderServer_attr_interpolation :
    (∀ (k : String) (v : AttrVal),
      renderAttrPairs [(k, v)] = k ++ "=\"" ++ jsString v ++ "\"") ∧
    jsString AttrVal.undef = "undefined" ∧
    jsString (AttrVal.bool false) = "false" ∧
    (renderServerHeadmaster
        { meta := some (0, [[("a", AttrVal.undef), ("b", AttrVal.bool false),
            ("c", AttrVal.str "v")]]) } true).1
      = Except.ok "<meta a=\"undefined\" b=\"false\" c=\"v\" />" ∧
    (∀ (e : Element) (k : String),
      hasKey ((syncElement e [(k, AttrVal.undef)] none).1).attrs k = false) :=
  ⟨fun _ _ => rfl, rfl, rfl, rfl, fun e k => syncElement_undef_removes e k⟩

/-- C10: the teardown action leaves the document title and the root and body
attributes produced by the apply call unchanged — it only detaches recorded
head elements and reverts none of the other mutations. -/
theorem teardown_preserves_other_mutations :
    ∀ (doc : Doc) (prev next : Descriptor),
      (teardown (applyEffect doc prev next).doc
          (applyEffect doc prev next).recorded).title
        = (applyEffect doc prev next).doc.title ∧
      (teardown (applyEffect doc prev next).doc
          (applyEffect doc prev next).recorded).htmlAttrs
        = (applyEffect doc prev next).doc.htmlAttrs ∧
      (teardown (applyEffect doc prev next).doc
          (applyEffect doc prev next).recorded).bodyAttrs
        = (applyEffect doc prev next).doc.bodyAttrs := by
  intro doc prev next
  rw [teardown_eq]
  exact ⟨rfl, rfl, rfl⟩

end Headmaster
